import Mathlib

/-!
# Verification of the limitless-dashboard trade pipeline

Shallow embedding of the trade-to-statistics pipeline of the
limitless-dashboard repository:

* `src/src/lib/s3Client.ts` — `transformRawTrade` (trade normalizer) and
  `calculateStatsFromTrades` (statistics aggregator);
* `src/src/components/DailyBreakdown.tsx` — `calculateDailyStats`
  (daily bucketizer);
* `src/lambda/index.js` — the Lambda `handler` (pipeline orchestrator),
  `updateDailyVolume` and `updateDailyPoints` (history merger).

Modelling conventions:

* JavaScript numbers are modelled by `JSNum`: an exact fraction
  (`Frac`, an integer pair with positive denominator, compared by
  cross-multiplication) together with the IEEE special values
  `Infinity`, `-Infinity` and `NaN`.  The pipeline manipulates small
  decimal quantities for which double arithmetic is exact, so exact
  fractions are used for the finite case; the special-value propagation
  of `+ - * /`, comparisons, `Math.abs` and `Math.max` is modelled
  explicitly.  (`Frac` is used instead of Mathlib's `ℚ` so that every
  definition evaluates inside the kernel.)
* `parseFloat` / `parseInt` are implemented on strings following the
  ECMAScript grammars (whitespace skip, sign, `Infinity`, decimal and
  exponent parts; hex prefix for `parseInt`), returning `JSNum.nan`
  resp. `none` where JavaScript returns `NaN`.
* `Number.prototype.toFixed(2)` is implemented for the range the
  pipeline exercises (the ECMAScript fallback to `ToString` for
  magnitudes ≥ 10^21 is outside every value this program can form from
  its fixed-point inputs and is not modelled).
* Timestamp strings: a `Trade.timestamp` ISO string is represented by
  its `Date` value in milliseconds (`some ms`), or `none` for a string
  on which `new Date(...)` yields an Invalid Date.  All consumers of
  the field (`new Date(t.timestamp)` in the bucketizer and aggregator)
  observe exactly this value.
* History entry `date` fields hold `YYYY-MM-DD` strings, which are in
  order-preserving bijection with their `Date` values; they are
  represented by an integer day so that the `findIndex` string equality
  and the `new Date(b.date) - new Date(a.date)` sort comparator of the
  source agree with the model's equality and ordering.
* `Array.prototype.sort` is stable (ECMAScript 2019); a stable sort is
  extensionally determined by the comparator, so it is modelled by
  `List.insertionSort` with the corresponding total preorder.
-/

namespace Limitless

/-! ## Exact fractions that evaluate in the kernel -/

/-- An exact fraction `n / d`.  Every constructor and operation below
keeps `d` positive, and comparisons are by cross-multiplication, so no
gcd normalisation is ever needed (Mathlib's `ℚ` operations do not
reduce inside the kernel, which would block `decide` on concrete
runs of the pipeline). -/
structure Frac where
  n : Int
  d : Int
deriving DecidableEq, Repr

namespace Frac

/-- Embed an integer. -/
def ofInt (i : Int) : Frac := ⟨i, 1⟩

/-- The zero fraction. -/
def zero : Frac := ⟨0, 1⟩

/-- Negation. -/
def negF (a : Frac) : Frac := ⟨-a.n, a.d⟩

/-- Addition. -/
def addF (a b : Frac) : Frac := ⟨a.n * b.d + b.n * a.d, a.d * b.d⟩

/-- Multiplication. -/
def mulF (a b : Frac) : Frac := ⟨a.n * b.n, a.d * b.d⟩

/-- Division by a fraction with non-zero numerator (the caller checks
for zero); flips signs to keep the denominator positive. -/
def divF (a b : Frac) : Frac :=
  if 0 < b.n then ⟨a.n * b.d, a.d * b.n⟩ else ⟨-(a.n * b.d), -(a.d * b.n)⟩

/-- Value equality (cross-multiplication). -/
def eqF (a b : Frac) : Bool := a.n * b.d = b.n * a.d

/-- Value strict order (cross-multiplication; denominators positive). -/
def ltF (a b : Frac) : Bool := a.n * b.d < b.n * a.d

/-- Absolute value. -/
def absF (a : Frac) : Frac := ⟨if a.n < 0 then -a.n else a.n, a.d⟩

/-- Floor of the value (denominator positive, so floor division). -/
def floorF (a : Frac) : Int := Int.fdiv a.n a.d

/-- `10 ^ e` for an integer exponent. -/
def pow10 (e : Int) : Frac :=
  if 0 ≤ e then ⟨(10 ^ e.toNat : ℕ), 1⟩ else ⟨1, (10 ^ (-e).toNat : ℕ)⟩

end Frac

/-! ## JavaScript numbers -/

/-- A JavaScript number: an exact fraction, or one of the IEEE special
values `Infinity`, `-Infinity`, `NaN`. -/
inductive JSNum where
  | num (q : Frac)
  | posInf
  | negInf
  | nan
deriving DecidableEq, Repr

namespace JSNum

/-- The number `0`. -/
def zero : JSNum := num Frac.zero

/-- JS unary minus. -/
def neg : JSNum → JSNum
  | num q => num q.negF
  | posInf => negInf
  | negInf => posInf
  | nan => nan

/-- JS addition with special-value propagation. -/
def add : JSNum → JSNum → JSNum
  | nan, _ => nan
  | _, nan => nan
  | num a, num b => num (a.addF b)
  | posInf, negInf => nan
  | negInf, posInf => nan
  | posInf, _ => posInf
  | _, posInf => posInf
  | negInf, _ => negInf
  | _, negInf => negInf

/-- JS subtraction. -/
def sub (a b : JSNum) : JSNum := add a (neg b)

/-- JS multiplication with special-value propagation. -/
def mul : JSNum → JSNum → JSNum
  | nan, _ => nan
  | _, nan => nan
  | num a, num b => num (a.mulF b)
  | num a, posInf => if Frac.ltF Frac.zero a then posInf else if Frac.ltF a Frac.zero then negInf else nan
  | num a, negInf => if Frac.ltF Frac.zero a then negInf else if Frac.ltF a Frac.zero then posInf else nan
  | posInf, num b => if Frac.ltF Frac.zero b then posInf else if Frac.ltF b Frac.zero then negInf else nan
  | negInf, num b => if Frac.ltF Frac.zero b then negInf else if Frac.ltF b Frac.zero then posInf else nan
  | posInf, posInf => posInf
  | posInf, negInf => negInf
  | negInf, posInf => negInf
  | negInf, negInf => posInf

/-- JS division: division by zero yields a signed infinity (`0/0` is
`NaN`), and a finite value divided by an infinity yields `0`. -/
def div : JSNum → JSNum → JSNum
  | nan, _ => nan
  | _, nan => nan
  | num a, num b =>
      if b.n = 0 then
        (if Frac.ltF Frac.zero a then posInf else if Frac.ltF a Frac.zero then negInf else nan)
      else num (a.divF b)
  | num _, posInf => zero
  | num _, negInf => zero
  | posInf, num b => if Frac.ltF b Frac.zero then negInf else posInf
  | negInf, num b => if Frac.ltF b Frac.zero then posInf else negInf
  | posInf, posInf => nan
  | posInf, negInf => nan
  | negInf, posInf => nan
  | negInf, negInf => nan

/-- JS `<`: any comparison with `NaN` is false. -/
def lt : JSNum → JSNum → Bool
  | nan, _ => false
  | _, nan => false
  | num a, num b => Frac.ltF a b
  | num _, posInf => true
  | posInf, num _ => false
  | negInf, num _ => true
  | num _, negInf => false
  | negInf, posInf => true
  | posInf, negInf => false
  | posInf, posInf => false
  | negInf, negInf => false

/-- JS `>`. -/
def gt (a b : JSNum) : Bool := lt b a

/-- JS `==` / `===` restricted to numbers (`NaN` equals nothing). -/
def eqNum : JSNum → JSNum → Bool
  | num a, num b => Frac.eqF a b
  | posInf, posInf => true
  | negInf, negInf => true
  | _, _ => false

/-- JS `>=` (false whenever `NaN` is involved). -/
def ge (a b : JSNum) : Bool := lt b a || eqNum a b

/-- `Math.abs`. -/
def absJ : JSNum → JSNum
  | num q => num q.absF
  | nan => nan
  | _ => posInf

/-- `Math.max` of two values (`NaN` if either argument is `NaN`). -/
def maxJ : JSNum → JSNum → JSNum
  | nan, _ => nan
  | _, nan => nan
  | x, y => if lt x y then y else x

/-- Two-digit zero-padded rendering for the fractional part. -/
def twoDigits (n : ℕ) : String := (if n < 10 then "0" else "") ++ toString n

/-- `toFixed(2)` on a finite value: ECMAScript picks the integer `k`
minimising `|k/100 - x|` (ties to the larger `k`), applied to the
magnitude with the sign re-attached (so `-0.001` renders "-0.00").
`⌊|q| * 100 + 1/2⌋ = (|n| * 200 + d) fdiv (2 * d)`. -/
def ratToFixed2 (q : Frac) : String :=
  let an : Int := if q.n < 0 then -q.n else q.n
  let k : ℕ := (Int.fdiv (an * 200 + q.d) (2 * q.d)).toNat
  (if q.n < 0 then "-" else "") ++ toString (k / 100) ++ "." ++ twoDigits (k % 100)

/-- `Number.prototype.toFixed(2)`. -/
def toFixed2 : JSNum → String
  | num q => ratToFixed2 q
  | posInf => "Infinity"
  | negInf => "-Infinity"
  | nan => "NaN"

/-- `toFixed(1)`, used by the win-rate formatting. -/
def ratToFixed1 (q : Frac) : String :=
  let an : Int := if q.n < 0 then -q.n else q.n
  let k : ℕ := (Int.fdiv (an * 20 + q.d) (2 * q.d)).toNat
  (if q.n < 0 then "-" else "") ++ toString (k / 10) ++ "." ++ toString (k % 10)

/-- `Number.prototype.toFixed(1)`. -/
def toFixed1 : JSNum → String
  | num q => ratToFixed1 q
  | posInf => "Infinity"
  | negInf => "-Infinity"
  | nan => "NaN"

end JSNum

/-! ## ECMAScript string-to-number parsing -/

/-- ECMAScript whitespace accepted in front of a numeric literal. -/
def jsWhitespace (c : Char) : Bool :=
  c = ' ' || c = '\t' || c = '\n' || c = '\r' || c = '\x0b' || c = '\x0c'

/-- Value of one decimal digit. -/
def digitVal (c : Char) : ℕ := c.toNat - '0'.toNat

/-- Value of a decimal digit string. -/
def decDigitsVal (cs : List Char) : ℕ := cs.foldl (fun a c => a * 10 + digitVal c) 0

/-- Hexadecimal digit test. -/
def isHexDig (c : Char) : Bool :=
  c.isDigit || ('a' ≤ c && c ≤ 'f') || ('A' ≤ c && c ≤ 'F')

/-- Value of one hexadecimal digit. -/
def hexDigitVal (c : Char) : ℕ :=
  if c.isDigit then digitVal c
  else if 'a' ≤ c && c ≤ 'f' then c.toNat - 'a'.toNat + 10
  else c.toNat - 'A'.toNat + 10

/-- Value of a hexadecimal digit string. -/
def hexDigitsVal (cs : List Char) : ℕ := cs.foldl (fun a c => a * 16 + hexDigitVal c) 0

/-- Strip an optional sign, returning the sign and the remainder. -/
def takeSign : List Char → Int × List Char
  | '+' :: cs => (1, cs)
  | '-' :: cs => (-1, cs)
  | cs => (1, cs)

/-- `parseInt(s)` with the default radix rules: leading whitespace, an
optional sign, a `0x`/`0X` hexadecimal prefix, else leading decimal
digits; `none` models `NaN`. -/
def jsParseInt (s : String) : Option Int :=
  let cs := s.data.dropWhile jsWhitespace
  let sc := takeSign cs
  match sc.2 with
  | '0' :: 'x' :: rest =>
      let hd := rest.takeWhile isHexDig
      if hd.isEmpty then none else some (sc.1 * (hexDigitsVal hd : Int))
  | '0' :: 'X' :: rest =>
      let hd := rest.takeWhile isHexDig
      if hd.isEmpty then none else some (sc.1 * (hexDigitsVal hd : Int))
  | other =>
      let dd := other.takeWhile Char.isDigit
      if dd.isEmpty then none else some (sc.1 * (decDigitsVal dd : Int))

/-- The exponent part of a decimal literal: `e`/`E`, optional sign,
digits; an incomplete exponent is not consumed (value `0`). -/
def parseExponent : List Char → Int
  | c :: rest =>
      if c = 'e' || c = 'E' then
        let sc := takeSign rest
        let ed := sc.2.takeWhile Char.isDigit
        if ed.isEmpty then 0 else sc.1 * (decDigitsVal ed : Int)
      else 0
  | [] => 0

/-- `parseFloat(s)`: longest valid `StrDecimalLiteral` prefix after
whitespace; `nan` when no prefix parses (including the empty string). -/
def jsParseFloat (s : String) : JSNum :=
  let cs := s.data.dropWhile jsWhitespace
  let sc := takeSign cs
  if ("Infinity".data).isPrefixOf sc.2 then
    (if sc.1 = 1 then JSNum.posInf else JSNum.negInf)
  else
    let ip := sc.2.takeWhile Char.isDigit
    let cs1 := sc.2.drop ip.length
    let fp := match cs1 with
      | '.' :: rest => rest.takeWhile Char.isDigit
      | _ => []
    let csExp := match cs1 with
      | '.' :: rest => rest.drop fp.length
      | _ => cs1
    if ip.isEmpty && fp.isEmpty then JSNum.nan
    else
      let mant : Frac := ⟨(decDigitsVal ip * 10 ^ fp.length + decDigitsVal fp : ℕ), (10 ^ fp.length : ℕ)⟩
      JSNum.num (Frac.mulF ⟨sc.1, 1⟩ (Frac.mulF mant (Frac.pow10 (parseExponent csExp))))

/-! ## Data model (`src/src/lib/types.ts`, `src/src/lib/s3Client.ts`) -/

/-- `market.collateral` of a raw trade. -/
structure Collateral where
  symbol : String
  decimals : Int
deriving DecidableEq, Repr

/-- `market` of a raw trade; `winningOutcomeIndex` is `none` when the
field is absent (`undefined`) or `null`. -/
structure RawMarket where
  id : String
  title : String
  winningOutcomeIndex : Option Int
  collateral : Collateral
deriving DecidableEq, Repr

/-- A raw trade record as read from `trades.jsonl` (interface
`RawTrade` of `s3Client.ts`). -/
structure RawTrade where
  blockTimestamp : String
  market : RawMarket
  outcomeIndex : Int
  outcomeTokenNetCost : String
  outcomeTokenAmount : String
  collateralAmount : String
  outcomeTokenPrice : String
  strategy : String
  transactionHash : String
deriving DecidableEq, Repr

/-- Canonical trade type tag. -/
inductive TradeType where
  | BUY
  | SELL_PROFIT
  | SELL_STOP_LOSS
  | REDEEM
deriving DecidableEq, Repr

/-- Canonical trade result tag. -/
inductive TradeResult where
  | WON
  | LOST
deriving DecidableEq, Repr

/-- A canonical `Trade` (interface `Trade` of `types.ts`).  Optional
string fields are `Option String`; the ISO `timestamp` string is
represented by its `Date` value in milliseconds (`none` = the string
does not parse as a date). -/
structure Trade where
  timestamp : Option Int
  type : TradeType
  wallet : String
  marketAddress : String
  marketTitle : String
  outcome : Option Int
  outcomePrice : Option String
  investmentUSDC : Option String
  costUSDC : Option String
  returnUSDC : Option String
  redeemedUSDC : Option String
  pnlUSDC : Option String
  pnlPercent : Option String
  strategy : Option String
  txHash : String
  result : Option TradeResult
deriving DecidableEq, Repr

/-! ## Trade normalizer (`transformRawTrade`, s3Client.ts lines 36–116) -/

/-- `pat.isPrefixOf` at some position of `l`: JavaScript
`String.prototype.includes`. -/
def infixAux (pat : List Char) : List Char → Bool
  | [] => pat.isPrefixOf []
  | c :: cs => pat.isPrefixOf (c :: cs) || infixAux pat cs

/-- `s.includes(pat)`. -/
def strIncludes (s pat : String) : Bool := infixAux pat.data s.data

/-- `raw.market.collateral.decimals || 6` (`0` is falsy in JS). -/
def effDecimals (raw : RawTrade) : Int :=
  if raw.market.collateral.decimals = 0 then 6 else raw.market.collateral.decimals

/-- `costUSDC = (parseFloat(raw.outcomeTokenNetCost) / Math.pow(10, decimals)).toFixed(2)`. -/
def scaledCostStr (raw : RawTrade) : String :=
  JSNum.toFixed2 (JSNum.div (jsParseFloat raw.outcomeTokenNetCost) (JSNum.num (Frac.pow10 (effDecimals raw))))

/-- `collateralAmount = (parseFloat(raw.collateralAmount) / Math.pow(10, decimals)).toFixed(2)`. -/
def scaledCollateralStr (raw : RawTrade) : String :=
  JSNum.toFixed2 (JSNum.div (jsParseFloat raw.collateralAmount) (JSNum.num (Frac.pow10 (effDecimals raw))))

/-- `outcomeAmount = parseFloat(raw.outcomeTokenAmount) / Math.pow(10, decimals)` (not rounded). -/
def outcomeAmountNum (raw : RawTrade) : JSNum :=
  JSNum.div (jsParseFloat raw.outcomeTokenAmount) (JSNum.num (Frac.pow10 (effDecimals raw)))

/-- `isBuy = raw.strategy === 'Buy'`. -/
def isBuyStrat (raw : RawTrade) : Bool := raw.strategy = "Buy"

/-- `isRedeem = raw.strategy === 'Redeem' || raw.strategy.includes('Redeem')`. -/
def isRedeemStrat (raw : RawTrade) : Bool :=
  raw.strategy = "Redeem" || strIncludes raw.strategy "Redeem"

/-- `isSell = raw.strategy === 'Sell' || raw.strategy.includes('Sell')`. -/
def isSellStrat (raw : RawTrade) : Bool :=
  raw.strategy = "Sell" || strIncludes raw.strategy "Sell"

/-- The fields `(type, result, returnUSDC, pnlUSDC, pnlPercent)` set by
the realized branches of `transformRawTrade` (s3Client.ts lines 59–97):
`some` on the sell/redeem branch and on the legacy closed-market branch
(resolved `winningOutcomeIndex`), `none` when the trade stays an open
`BUY` with the declared defaults. -/
def realizedParts (raw : RawTrade) :
    Option (TradeType × TradeResult × String × String × String) :=
  if isRedeemStrat raw || isSellStrat raw then
    -- lines 59–77: received = collateralAmount, pnl = received - cost
    let ret := scaledCollateralStr raw
    let costN := jsParseFloat (scaledCostStr raw)
    let pnl := JSNum.sub (jsParseFloat ret) costN
    let pnlS := JSNum.toFixed2 pnl
    -- `if (parseFloat(costUSDC) !== 0) { percent } else { '0.00' }`
    let pctS := if JSNum.eqNum costN JSNum.zero then "0.00"
      else JSNum.toFixed2 (JSNum.mul (JSNum.div pnl costN) (JSNum.num (Frac.ofInt 100)))
    let res := if JSNum.ge pnl JSNum.zero then TradeResult.WON else TradeResult.LOST
    if isRedeemStrat raw then some (.REDEEM, res, ret, pnlS, pctS)
    else some ((if JSNum.gt pnl JSNum.zero then .SELL_PROFIT else .SELL_STOP_LOSS), res, ret, pnlS, pctS)
  else
    match raw.market.winningOutcomeIndex with
    | some w =>
      -- lines 78–97: legacy closed-market handling
      if w = raw.outcomeIndex then
        -- won: return = outcomeAmount; the percent division is unguarded
        let ret := JSNum.toFixed2 (outcomeAmountNum raw)
        let costN := jsParseFloat (scaledCostStr raw)
        let pnl := JSNum.sub (outcomeAmountNum raw) costN
        some ((if JSNum.gt pnl JSNum.zero then .SELL_PROFIT else .SELL_STOP_LOSS),
          .WON, ret, JSNum.toFixed2 pnl,
          JSNum.toFixed2 (JSNum.mul (JSNum.div pnl costN) (JSNum.num (Frac.ofInt 100))))
      else
        -- lost: return 0, pnl = -cost, percent -100.00
        some (.SELL_STOP_LOSS, .LOST, "0.00",
          JSNum.toFixed2 (JSNum.neg (jsParseFloat (scaledCostStr raw))), "-100.00")
    | none => none

/-- `new Date(ms).toISOString()` throws a `RangeError` beyond
±8.64e15 milliseconds from the epoch. -/
def maxDateMs : ℕ := 8640000000000000

/-- The only JavaScript exception `transformRawTrade` can raise. -/
inductive JsError where
  | rangeError
deriving DecidableEq, Repr

instance {ε α : Type} [DecidableEq ε] [DecidableEq α] : DecidableEq (Except ε α) := fun x y =>
  match x, y with
  | .ok a, .ok b =>
      if h : a = b then .isTrue (by rw [h]) else .isFalse (fun hc => h (Except.ok.inj hc))
  | .error a, .error b =>
      if h : a = b then .isTrue (by rw [h]) else .isFalse (fun hc => h (Except.error.inj hc))
  | .ok _, .error _ => .isFalse (fun hc => Except.noConfusion hc)
  | .error _, .ok _ => .isFalse (fun hc => Except.noConfusion hc)

/-- The `Trade` record assembled by `transformRawTrade` (lines 99–115)
once the timestamp milliseconds `ms` are known. -/
def buildTrade (raw : RawTrade) (ms : Int) : Trade :=
  match realizedParts raw with
  | some (ty, res, ret, pnlS, pctS) =>
    { timestamp := some ms
      type := ty
      wallet := ""
      marketAddress := raw.market.id
      marketTitle := raw.market.title
      outcome := some raw.outcomeIndex
      outcomePrice := some raw.outcomeTokenPrice
      investmentUSDC := if isBuyStrat raw then some (scaledCostStr raw) else none
      costUSDC := some (scaledCostStr raw)
      returnUSDC := some ret
      redeemedUSDC := none
      pnlUSDC := some pnlS
      pnlPercent := some pctS
      strategy := some raw.strategy
      txHash := raw.transactionHash
      result := some res }
  | none =>
    { timestamp := some ms
      type := .BUY
      wallet := ""
      marketAddress := raw.market.id
      marketTitle := raw.market.title
      outcome := some raw.outcomeIndex
      outcomePrice := some raw.outcomeTokenPrice
      investmentUSDC := if isBuyStrat raw then some (scaledCostStr raw) else none
      costUSDC := some (scaledCostStr raw)
      returnUSDC := none
      redeemedUSDC := none
      pnlUSDC := none
      pnlPercent := none
      strategy := some raw.strategy
      txHash := raw.transactionHash
      result := none }

/-- `transformRawTrade` (s3Client.ts lines 36–116).  Line 38 computes
`new Date(parseInt(raw.blockTimestamp) * 1000).toISOString()`: when
`parseInt` yields `NaN` (or the milliseconds fall outside the `Date`
range) `toISOString` throws a `RangeError`, modelled as `.error`. -/
def transformRawTrade (raw : RawTrade) : Except JsError Trade :=
  match jsParseInt raw.blockTimestamp with
  | none => .error .rangeError
  | some n =>
    if (n * 1000).natAbs > maxDateMs then .error .rangeError
    else .ok (buildTrade raw (n * 1000))

/-! ## Statistics aggregator (`calculateStatsFromTrades`, s3Client.ts lines 134–206) -/

/-- JS `x || dflt` for an optional string (`undefined` and `""` are falsy). -/
def strOr (o : Option String) (dflt : String) : String :=
  match o with
  | some s => if s = "" then dflt else s
  | none => dflt

/-- JS `a || b` between two optional strings. -/
def strOrOpt (a b : Option String) : Option String :=
  match a with
  | some s => if s = "" then b else some s
  | none => b

/-- `parseFloat(trade.pnlUSDC || '0')` (line 152). -/
def tradePnl (t : Trade) : JSNum := jsParseFloat (strOr t.pnlUSDC "0")

/-- The closed-trade filter of the aggregator (lines 143–148):
`type` is a sell/redeem tag, or `result` is defined. -/
def closedTradePred (t : Trade) : Bool :=
  t.type = .SELL_PROFIT || t.type = .SELL_STOP_LOSS || t.type = .REDEEM || t.result.isSome

/-- The profitable test of the aggregator (line 154). -/
def profCond (t : Trade) : Bool :=
  JSNum.gt (tradePnl t) JSNum.zero || t.result = some .WON || t.type = .SELL_PROFIT

/-- The losing test of the aggregator (line 157; reached only when
`profCond` fails, as in the `else if`). -/
def loseCond (t : Trade) : Bool :=
  JSNum.lt (tradePnl t) JSNum.zero || t.result = some .LOST || t.type = .SELL_STOP_LOSS

/-- The mutable counters of the `closedTrades.forEach` loop. -/
structure StatsAcc where
  totalTrades : ℕ
  profitableTrades : ℕ
  losingTrades : ℕ
  totalProfitUSDC : JSNum
  totalLossUSDC : JSNum
deriving DecidableEq, Repr

/-- One iteration of the `closedTrades.forEach` loop (lines 150–161). -/
def statsStep (acc : StatsAcc) (t : Trade) : StatsAcc :=
  let acc1 := { acc with totalTrades := acc.totalTrades + 1 }
  if profCond t then
    { acc1 with profitableTrades := acc1.profitableTrades + 1,
                totalProfitUSDC := JSNum.add acc1.totalProfitUSDC (JSNum.absJ (tradePnl t)) }
  else if loseCond t then
    { acc1 with losingTrades := acc1.losingTrades + 1,
                totalLossUSDC := JSNum.add acc1.totalLossUSDC (JSNum.absJ (tradePnl t)) }
  else acc1

/-- The aggregate statistics (interface `Stats` plus the computed
volume; `points` enrichment is attached later by `fetchStats` and is
not part of the aggregation). -/
structure Stats where
  totalTrades : ℕ
  profitableTrades : ℕ
  losingTrades : ℕ
  totalProfitUSDC : JSNum
  totalLossUSDC : JSNum
  netProfitUSDC : JSNum
  winRate : String
  uptimeHours : String
  startTime : Int
  lastUpdated : Int
  totalVolumeUSDC : JSNum
deriving DecidableEq, Repr

/-- Ascending sort of timestamps (`timestamps.sort((a, b) => a - b)`). -/
def sortAscInt (l : List Int) : List Int := l.insertionSort (fun a b => a ≤ b)

/-- `calculateStatsFromTrades` (s3Client.ts lines 134–206).  `now`
supplies `Date.now()` for the no-parseable-timestamp fallback. -/
def calculateStatsFromTrades (trades : List Trade) (now : Int) : Stats :=
  let closedTrades := trades.filter closedTradePred
  let acc := closedTrades.foldl statsStep ⟨0, 0, 0, JSNum.zero, JSNum.zero⟩
  -- lines 163–166: volume over all trades, `parseFloat(trade.costUSDC || '0')`
  let totalVolumeUSDC :=
    trades.foldl (fun s t => JSNum.add s (jsParseFloat (strOr t.costUSDC "0"))) JSNum.zero
  let netProfitUSDC := JSNum.sub acc.totalProfitUSDC acc.totalLossUSDC
  let winRate := if acc.totalTrades > 0 then
      JSNum.toFixed1 (JSNum.mul (JSNum.div (JSNum.num (Frac.ofInt acc.profitableTrades))
        (JSNum.num (Frac.ofInt acc.totalTrades))) (JSNum.num (Frac.ofInt 100))) ++ "%"
    else "0%"
  -- lines 173–189: valid timestamps, ascending
  let timestamps := sortAscInt (trades.filterMap Trade.timestamp)
  match timestamps with
  | [] =>
      { totalTrades := acc.totalTrades, profitableTrades := acc.profitableTrades
        losingTrades := acc.losingTrades, totalProfitUSDC := acc.totalProfitUSDC
        totalLossUSDC := acc.totalLossUSDC, netProfitUSDC := netProfitUSDC
        winRate := winRate, uptimeHours := "0", startTime := now, lastUpdated := now
        totalVolumeUSDC := totalVolumeUSDC }
  | t0 :: rest =>
      let last := (t0 :: rest).getLast (by simp)
      { totalTrades := acc.totalTrades, profitableTrades := acc.profitableTrades
        losingTrades := acc.losingTrades, totalProfitUSDC := acc.totalProfitUSDC
        totalLossUSDC := acc.totalLossUSDC, netProfitUSDC := netProfitUSDC
        winRate := winRate
        uptimeHours := JSNum.toFixed1 (JSNum.div (JSNum.num (Frac.ofInt (last - t0)))
          (JSNum.num (Frac.ofInt 3600000)))
        startTime := t0, lastUpdated := last, totalVolumeUSDC := totalVolumeUSDC }

/-! ## Daily bucketizer (`calculateDailyStats`, DailyBreakdown.tsx lines 286–352) -/

/-- `safeParseFloat` of DailyBreakdown.tsx (lines 280–284) on an
optional string: `undefined` or an unparseable string give the default
`0`; note `Infinity` passes the `isNaN` check unchanged. -/
def safeParseFloat (v : Option String) : JSNum :=
  match v with
  | none => JSNum.zero
  | some s => match jsParseFloat s with
    | .nan => JSNum.zero
    | x => x

/-- A bucket key: the `toLocaleDateString('en-US', {month, day})` label
of the trade's day, represented by the `(month, day)` pair it renders
(the label drops the year), or `none` for the "Invalid Date" sentinel
bucket. -/
abbrev DayKey := Option (Int × Int)

/-- Civil-calendar conversion of a day number (days since 1970-01-01)
to `(year, month, day)`. -/
def civilFromDays (days : Int) : Int × Int × Int :=
  let z := days + 719468
  let era := Int.fdiv z 146097
  let doe := z - era * 146097
  let yoe := Int.fdiv (doe - Int.fdiv doe 1460 + Int.fdiv doe 36524 - Int.fdiv doe 146096) 365
  let y := yoe + era * 400
  let doy := doe - (365 * yoe + Int.fdiv yoe 4 - Int.fdiv yoe 100)
  let mp := Int.fdiv (5 * doy + 2) 153
  let d := doy - Int.fdiv (153 * mp + 2) 5 + 1
  let m := if mp < 10 then mp + 3 else mp - 9
  (if m ≤ 2 then y + 1 else y, m, d)

/-- The `(month, day)` of a millisecond timestamp (the date label is
rendered in the runtime's timezone; UTC is used here). -/
def localeMonthDay (ms : Int) : Int × Int :=
  ((civilFromDays (Int.fdiv ms 86400000)).2.1, (civilFromDays (Int.fdiv ms 86400000)).2.2)

/-- Bucket key of a trade (lines 290–308): the day label for a valid
date, the "Invalid Date" sentinel otherwise. -/
def tradeDayKey (t : Trade) : DayKey := t.timestamp.map localeMonthDay

/-- The numeric timestamp stored with a fresh bucket (0 for an invalid
date, line 297). -/
def tradeTsVal (t : Trade) : Int :=
  match t.timestamp with
  | some ms => ms
  | none => 0

/-- One day's accumulating bucket, with the sort timestamp that
`calculateDailyStats` keeps alongside (`DailyStats & {timestamp}`). -/
structure DailyAcc where
  date : DayKey
  timestamp : Int
  trades : ℕ
  wins : ℕ
  losses : ℕ
  profitUSDC : JSNum
  lossUSDC : JSNum
  netProfitUSDC : JSNum
  volumeUSDC : JSNum
deriving DecidableEq, Repr

/-- The emitted per-day rollup (interface `DailyStats`), without the
internal sort timestamp. -/
structure DailyStats where
  date : DayKey
  trades : ℕ
  wins : ℕ
  losses : ℕ
  profitUSDC : JSNum
  lossUSDC : JSNum
  netProfitUSDC : JSNum
  volumeUSDC : JSNum
deriving DecidableEq, Repr

/-- Drop the sort timestamp (`.map(({timestamp, ...rest}) => rest)`). -/
def dropTs (b : DailyAcc) : DailyStats :=
  ⟨b.date, b.trades, b.wins, b.losses, b.profitUSDC, b.lossUSDC, b.netProfitUSDC, b.volumeUSDC⟩

/-- A fresh zeroed bucket (lines 310–322). -/
def freshBucket (k : DayKey) (ts : Int) : DailyAcc :=
  ⟨k, ts, 0, 0, 0, JSNum.zero, JSNum.zero, JSNum.zero, JSNum.zero⟩

/-- Closed-trade test of the bucketizer (line 327): type tags only. -/
def typeClosed (t : Trade) : Bool :=
  t.type = .SELL_PROFIT || t.type = .SELL_STOP_LOSS || t.type = .REDEEM

/-- The per-trade bucket update (lines 326–345). -/
def bucketStep (t : Trade) (b : DailyAcc) : DailyAcc :=
  let b1 :=
    if typeClosed t then
      let pnl := safeParseFloat t.pnlUSDC
      let b2 := { b with trades := b.trades + 1 }
      let b3 :=
        if JSNum.gt pnl JSNum.zero || t.result = some .WON then
          { b2 with wins := b2.wins + 1, profitUSDC := JSNum.add b2.profitUSDC (JSNum.absJ pnl) }
        else if JSNum.lt pnl JSNum.zero || t.result = some .LOST then
          { b2 with losses := b2.losses + 1, lossUSDC := JSNum.add b2.lossUSDC (JSNum.absJ pnl) }
        else b2
      { b3 with netProfitUSDC := JSNum.add b3.netProfitUSDC pnl }
    else b
  let cost := safeParseFloat (strOrOpt t.costUSDC t.investmentUSDC)
  let ret := safeParseFloat (strOrOpt t.returnUSDC t.redeemedUSDC)
  { b1 with volumeUSDC := JSNum.add b1.volumeUSDC (JSNum.maxJ cost ret) }

/-- Update the keyed bucket map, which preserves first-insertion order
like a JS object with non-index string keys. -/
def upsertBucket : List DailyAcc → DayKey → Int → Trade → List DailyAcc
  | [], k, ts, t => [bucketStep t (freshBucket k ts)]
  | b :: bs, k, ts, t =>
      if b.date = k then bucketStep t b :: bs else b :: upsertBucket bs k ts t

/-- The bucket map after the `trades.forEach` pass. -/
def calcDailyAux (trades : List Trade) : List DailyAcc :=
  trades.foldl (fun m t => upsertBucket m (tradeDayKey t) (tradeTsVal t) t) []

/-- `calculateDailyStats` (DailyBreakdown.tsx lines 286–352): bucket
per day label, then sort by the buckets' timestamps descending
(stable) and drop the sort key. -/
def calculateDailyStats (trades : List Trade) : List DailyStats :=
  (((calcDailyAux trades).insertionSort (fun a b => b.timestamp ≤ a.timestamp)).map dropTs)

/-! ## History merger (`updateDailyVolume` / `updateDailyPoints`, index.js lines 445–544) -/

/-- One entry of `volume-history.json`: the `YYYY-MM-DD` date string is
represented by its day value, the ISO `lastUpdated` string by its
millisecond value. -/
structure VolEntry where
  date : Int
  volume : JSNum
  lastUpdated : Int
deriving DecidableEq, Repr

/-- One entry of `points-history.json`. -/
structure PtsEntry where
  date : Int
  season1 : JSNum
  season2 : JSNum
  currentMonth : JSNum
  lastUpdated : Int
deriving DecidableEq, Repr

/-- The `findIndex`/update-or-`push` step of `updateDailyVolume`
(lines 464–477): overwrite the metric fields of the first entry dated
`today` in place, or append a fresh entry. -/
def replaceFirstVol (today : Int) (v : JSNum) (now : Int) : List VolEntry → List VolEntry
  | [] => [⟨today, v, now⟩]
  | e :: rest =>
      if e.date = today then { e with volume := v, lastUpdated := now } :: rest
      else e :: replaceFirstVol today v now rest

/-- The `findIndex`/update-or-`push` step of `updateDailyPoints`
(lines 515–532). -/
def replaceFirstPts (today : Int) (s1 s2 cm : JSNum) (now : Int) : List PtsEntry → List PtsEntry
  | [] => [⟨today, s1, s2, cm, now⟩]
  | e :: rest =>
      if e.date = today then
        { e with season1 := s1, season2 := s2, currentMonth := cm, lastUpdated := now } :: rest
      else e :: replaceFirstPts today s1 s2 cm now rest

/-- The comparator `(a, b) => new Date(b.date) - new Date(a.date)`
(newest first) as a total preorder on entries. -/
def volDescRel (a b : VolEntry) : Prop := b.date ≤ a.date

instance : DecidableRel volDescRel := fun a b => Int.decLe b.date a.date

instance : IsTotal VolEntry volDescRel := ⟨fun a b => Int.le_total b.date a.date⟩

instance : IsTrans VolEntry volDescRel := ⟨fun _ _ _ hab hbc => le_trans hbc hab⟩

/-- Same comparator for points entries. -/
def ptsDescRel (a b : PtsEntry) : Prop := b.date ≤ a.date

instance : DecidableRel ptsDescRel := fun a b => Int.decLe b.date a.date

instance : IsTotal PtsEntry ptsDescRel := ⟨fun a b => Int.le_total b.date a.date⟩

instance : IsTrans PtsEntry ptsDescRel := ⟨fun _ _ _ hab hbc => le_trans hbc hab⟩

/-- The stable descending sort of the history series. -/
def sortDescVol (l : List VolEntry) : List VolEntry := l.insertionSort volDescRel

/-- The stable descending sort of the points series. -/
def sortDescPts (l : List PtsEntry) : List PtsEntry := l.insertionSort ptsDescRel

/-- The pure core of `updateDailyVolume` (index.js lines 445–489):
replace-or-append today's entry, sort by date newest first, keep the
last 90 days.  `today` is the process-local calendar day, `v` the
parsed `currentVolume`, `now` the `new Date().toISOString()` instant. -/
def updateDailyVolumePure (hist : List VolEntry) (today : Int) (v : JSNum) (now : Int) :
    List VolEntry :=
  (sortDescVol (replaceFirstVol today v now hist)).take 90

/-- The pure core of `updateDailyPoints` (index.js lines 494–544). -/
def updateDailyPointsPure (hist : List PtsEntry) (today : Int) (s1 s2 cm : JSNum) (now : Int) :
    List PtsEntry :=
  (sortDescPts (replaceFirstPts today s1 s2 cm now hist)).take 90

/-! ## Pipeline orchestrator (`handler`, index.js lines 19–70) -/

/-- Outcome of one upstream fetch: the promise resolved, or rejected. -/
inductive Fetch (α : Type) where
  | ok (a : α)
  | fail
deriving DecidableEq, Repr

/-- The `try { ... } catch { return [] }` wrapper of `fetchPositions`
(lines 220–234) and `fetchTrades` (lines 239–253): a failed fetch is
swallowed and yields the empty list. -/
def fetchListOrEmpty {α : Type} : Fetch (List α) → List α
  | .ok l => l
  | .fail => []

/-- The `try { ... } catch { return null }` wrapper of `fetchPoints`
(lines 258–271) and `fetchTradedVolume` (lines 276–289). -/
def fetchOrNull {α : Type} : Fetch α → Option α
  | .ok a => some a
  | .fail => none

/-- Result of one handler run: the HTTP status of the Lambda response
and the S3 keys written, in write order, plus the trade list the run
processed.  Blob contents other than the key set are outside the
claims about the orchestrator's control flow. -/
structure RunResult (τ : Type) where
  statusCode : ℕ
  writes : List String
  tradesUsed : List τ
deriving DecidableEq, Repr

/-- The Lambda `handler` (index.js lines 19–70) over the outcomes of
its collaborator calls, generic in the fetched payload types.  Only a
failure *before* the fetches (`ensureValidSession`, modelled by
`sessionOk = false`) reaches the handler's `catch` and produces the
500 result with nothing written: each fetcher catches its own error
(`fetchListOrEmpty` / `fetchOrNull`), so the run then proceeds to
`updateDailyVolume` (writes `volume-history.json`), `updateDailyPoints`
(writes `points-history.json`) and the final `Promise.all` upload of
`trades.jsonl`, `stats.json` and `state.json`. -/
def handlerModel {π τ ρ σ : Type} (sessionOk : Bool) (positionsF : Fetch (List π))
    (tradesF : Fetch (List τ)) (pointsF : Fetch ρ) (volumeF : Fetch σ) : RunResult τ :=
  if sessionOk then
    let _positions := fetchListOrEmpty positionsF
    let trades := fetchListOrEmpty tradesF
    let _points := fetchOrNull pointsF
    let _volume := fetchOrNull volumeF
    { statusCode := 200
      writes := ["volume-history.json", "points-history.json",
                 "trades.jsonl", "stats.json", "state.json"]
      tradesUsed := trades }
  else
    { statusCode := 500, writes := [], tradesUsed := [] }

/-! ## Auxiliary definitions for statements and proofs -/

/-- The first entry of a history series dated `today`, in list order
(the entry JavaScript's `findIndex` would locate). -/
def firstToday (today : Int) : List VolEntry → Option VolEntry
  | [] => none
  | e :: es => if e.date = today then some e else firstToday today es

/-- Points-series version of `firstToday`. -/
def firstTodayP (today : Int) : List PtsEntry → Option PtsEntry
  | [] => none
  | e :: es => if e.date = today then some e else firstTodayP today es

/-! ## Concrete inputs used by witnesses and counterexamples -/

/-- A raw redeem trade: cost 5 USDC, received 10 USDC (the worked
scenario of the specification). -/
def rawRedeemWin : RawTrade :=
  { blockTimestamp := "1700000000"
    market := { id := "0xA", title := "Will X happen?", winningOutcomeIndex := none,
                collateral := { symbol := "USDC", decimals := 6 } }
    outcomeIndex := 0
    outcomeTokenNetCost := "5000000"
    outcomeTokenAmount := "10000000"
    collateralAmount := "10000000"
    outcomeTokenPrice := "0.5"
    strategy := "Redeem"
    transactionHash := "0xdead" }

/-- A raw trade whose `blockTimestamp` has no leading digits, so
`parseInt` yields `NaN`. -/
def rawBadTs : RawTrade := { rawRedeemWin with blockTimestamp := "not-a-number" }

/-- A raw redeem trade with received = cost (realized P&L exactly 0). -/
def rawRedeemEven : RawTrade := { rawRedeemWin with collateralAmount := "5000000" }

/-- A raw sell trade with zero cost and zero proceeds. -/
def rawSellZeroCost : RawTrade :=
  { rawRedeemWin with strategy := "Sell", outcomeTokenNetCost := "0", collateralAmount := "0" }

/-- A legacy closed-market raw trade (no recognised strategy, resolved
winning outcome equal to the trade's outcome) with zero cost. -/
def rawLegacyZeroCost : RawTrade :=
  { rawRedeemWin with strategy := "",
                      outcomeTokenNetCost := "0",
                      market := { rawRedeemWin.market with winningOutcomeIndex := some 0 } }

/-- A plain raw buy. -/
def rawBuy : RawTrade := { rawRedeemWin with strategy := "Buy" }

/-- A closed `Trade` with zero P&L carrying no result tag and no
sell-type tag (domain of the aggregator, which accepts any `Trade`). -/
def tEvenUntagged : Trade :=
  { timestamp := some 1700000000000, type := .REDEEM, wallet := "", marketAddress := "0xA"
    marketTitle := "W", outcome := some 0, outcomePrice := some "0.5"
    investmentUSDC := none, costUSDC := some "5.00", returnUSDC := some "5.00"
    redeemedUSDC := none, pnlUSDC := some "0.00", pnlPercent := some "0.00"
    strategy := some "Redeem", txHash := "0x1", result := none }

/-- A buy `Trade` and a redeem `Trade` used by the bucket/aggregate
consistency witness. -/
def tBuyLit : Trade :=
  { timestamp := some 1700000000000, type := .BUY, wallet := "", marketAddress := "0xA"
    marketTitle := "W", outcome := some 0, outcomePrice := some "0.5"
    investmentUSDC := some "5.00", costUSDC := some "5.00", returnUSDC := none
    redeemedUSDC := none, pnlUSDC := none, pnlPercent := none
    strategy := some "Buy", txHash := "0x2", result := none }

/-- See `tBuyLit`. -/
def tRedeemLit : Trade :=
  { timestamp := some 1700086400000, type := .REDEEM, wallet := "", marketAddress := "0xB"
    marketTitle := "W2", outcome := some 1, outcomePrice := some "0.5"
    investmentUSDC := none, costUSDC := some "5.00", returnUSDC := some "10.00"
    redeemedUSDC := none, pnlUSDC := some "5.00", pnlPercent := some "100.00"
    strategy := some "Redeem", txHash := "0x3", result := some .WON }

/-- A one-entry volume history dated day 5. -/
def volHist0 : List VolEntry := [⟨5, JSNum.num (Frac.ofInt 7), 100⟩]

/-- A one-entry points history dated day 5. -/
def ptsHist0 : List PtsEntry :=
  [⟨5, JSNum.num (Frac.ofInt 1), JSNum.num (Frac.ofInt 2), JSNum.num (Frac.ofInt 3), 100⟩]

/-! # Claim theorems -/

/-! ### C1 — orchestrator behaviour on a failed raw-trade fetch -/

/-- C1 counterexample: with a valid session and a failing raw-trade
fetch (all other fetches also failing), the handler returns a 200
result and still writes `trades.jsonl`, `stats.json` and `state.json` —
the claim asserts an error result with no output blobs written. -/
theorem handler_writes_despite_trade_fetch_failure :
    (handlerModel true (Fetch.ok ([] : List Unit)) (Fetch.fail : Fetch (List Unit))
        (Fetch.fail : Fetch Unit) (Fetch.fail : Fetch Unit)).statusCode = 200
    ∧ "trades.jsonl" ∈ (handlerModel true (Fetch.ok ([] : List Unit))
        (Fetch.fail : Fetch (List Unit)) (Fetch.fail : Fetch Unit)
        (Fetch.fail : Fetch Unit)).writes
    ∧ "stats.json" ∈ (handlerModel true (Fetch.ok ([] : List Unit))
        (Fetch.fail : Fetch (List Unit)) (Fetch.fail : Fetch Unit)
        (Fetch.fail : Fetch Unit)).writes
    ∧ "state.json" ∈ (handlerModel true (Fetch.ok ([] : List Unit))
        (Fetch.fail : Fetch (List Unit)) (Fetch.fail : Fetch Unit)
        (Fetch.fail : Fetch Unit)).writes := by
  refine ⟨rfl, ?_, ?_, ?_⟩ <;> decide

/-- C1 (amended): a failure of the mandatory raw-trade fetch does not
abort the run.  `fetchTrades` catches its own error and returns the
empty list, so whenever the session step succeeds the handler proceeds
with zero trades, returns a 200 result and writes all five output
blobs; only a failure before the fetches (authentication) aborts with
a 500 result and no writes. -/
theorem handler_swallows_trade_fetch_failure {π ρ σ τ : Type}
    (positionsF : Fetch (List π)) (pointsF : Fetch ρ) (volumeF : Fetch σ) :
    handlerModel true positionsF (Fetch.fail : Fetch (List τ)) pointsF volumeF =
      ⟨200, ["volume-history.json", "points-history.json",
             "trades.jsonl", "stats.json", "state.json"], []⟩
    ∧ handlerModel false positionsF (Fetch.fail : Fetch (List τ)) pointsF volumeF =
      ⟨500, [], []⟩ := ⟨rfl, rfl⟩

/-! ### C2 — normalizer timestamp handling -/

/-- C2 counterexample: the normalizer *does* throw.  On a source
timestamp with no leading digits, `parseInt` yields `NaN`,
`new Date(NaN).toISOString()` raises a `RangeError`, and no
current-instant fallback occurs. -/
theorem transform_throws_on_unparseable_timestamp :
    transformRawTrade rawBadTs = .error .rangeError := by decide

/-- C2 (amended): the normalizer parses the source timestamp with
`parseInt` as Unix seconds in every case — an ISO timestamp is not
given a separate parse (its leading digits are misread as seconds) —
and when `parseInt` yields `NaN` (or the milliseconds exceed the
`Date` range) the normalizer throws a `RangeError` instead of falling
back to the current instant. -/
theorem transform_timestamp_parseInt_only (raw : RawTrade) :
    (jsParseInt raw.blockTimestamp = none → transformRawTrade raw = .error .rangeError)
    ∧ (∀ n : Int, jsParseInt raw.blockTimestamp = some n →
        (n * 1000).natAbs ≤ maxDateMs →
        transformRawTrade raw = .ok (buildTrade raw (n * 1000))
        ∧ (buildTrade raw (n * 1000)).timestamp = some (n * 1000)) := by
  constructor
  · intro h
    unfold transformRawTrade
    rw [h]
  · intro n hn hrange
    constructor
    · unfold transformRawTrade
      rw [hn]
      simp [Nat.not_lt.mpr hrange]
    · unfold buildTrade
      cases realizedParts raw <;> rfl

/-- Witness for `transform_timestamp_parseInt_only`: the hypotheses are
discharged at the unparseable input `rawBadTs` (first part) and at the
Unix-seconds input `rawRedeemWin` (second part). -/
theorem transform_timestamp_parseInt_only_witness :
    transformRawTrade rawBadTs = .error .rangeError
    ∧ (transformRawTrade rawRedeemWin = .ok (buildTrade rawRedeemWin 1700000000000)
        ∧ (buildTrade rawRedeemWin 1700000000000).timestamp = some 1700000000000) :=
  ⟨(transform_timestamp_parseInt_only rawBadTs).1 (by decide),
   by
    have h := (transform_timestamp_parseInt_only rawRedeemWin).2 1700000000 (by decide) (by decide)
    simpa using h⟩

/-! ### C5 — sort direction of the persisted histories -/

/-- C5 counterexample: merging a points history holding day 5 with a
today-entry for day 10 persists `[day 10, day 5]` — descending, not
the ascending order the claim asserts for the points-history output. -/
theorem points_history_not_ascending :
    ¬ List.Sorted (fun a b : PtsEntry => a.date ≤ b.date)
      (updateDailyPointsPure ptsHist0 10 (JSNum.num (Frac.ofInt 4))
        (JSNum.num (Frac.ofInt 5)) (JSNum.num (Frac.ofInt 6)) 200) := by
  decide

/-- C5 (amended): both history call sites sort newest first — the
persisted points-history series and the volume-history series after a
merge are each in descending date order (never ascending). -/
theorem history_outputs_sorted_descending (histV : List VolEntry) (histP : List PtsEntry)
    (today : Int) (v s1 s2 cm : JSNum) (now : Int) :
    List.Sorted volDescRel (updateDailyVolumePure histV today v now)
    ∧ List.Sorted ptsDescRel (updateDailyPointsPure histP today s1 s2 cm now) :=
  ⟨(List.sorted_insertionSort volDescRel _).sublist (List.take_sublist _ _),
   (List.sorted_insertionSort ptsDescRel _).sublist (List.take_sublist _ _)⟩

/-! ### Helper lemmas about the normalizer -/

/-- A successful `transformRawTrade` run returns `buildTrade` at the
parsed milliseconds. -/
theorem transform_ok_eq_build {raw : RawTrade} {t : Trade}
    (h : transformRawTrade raw = .ok t) : ∃ ms : Int, t = buildTrade raw ms := by
  unfold transformRawTrade at h
  split at h
  · exact absurd h (by simp)
  · split at h
    · exact absurd h (by simp)
    · exact ⟨_, (Except.ok.inj h).symm⟩

/-- The realized branches never produce the `BUY` tag. -/
theorem realizedParts_ne_buy {raw : RawTrade}
    {ty : TradeType} {res : TradeResult} {ret pnlS pctS : String}
    (hr : realizedParts raw = some (ty, res, ret, pnlS, pctS)) : ty ≠ .BUY := by
  unfold realizedParts at hr
  split at hr
  · split at hr <;>
      · simp only [Option.some.injEq, Prod.mk.injEq] at hr
        obtain ⟨h1, -⟩ := hr
        subst h1
        first
        | exact fun hc => TradeType.noConfusion hc
        | · split <;> exact fun hc => TradeType.noConfusion hc
  · split at hr
    · split at hr <;>
        · simp only [Option.some.injEq, Prod.mk.injEq] at hr
          obtain ⟨h1, -⟩ := hr
          subst h1
          first
          | exact fun hc => TradeType.noConfusion hc
          | · split <;> exact fun hc => TradeType.noConfusion hc
    · exact absurd hr (by simp)

/-! ### C6 — result/pnl and BUY/pnl invariants of the normalizer -/

/-- C6: every trade the normalizer produces has `result` and `pnlUSDC`
both defined or both undefined, and its type is `BUY` exactly when
`pnlUSDC` is undefined. -/
theorem trade_result_pnl_invariant (raw : RawTrade) (t : Trade)
    (h : transformRawTrade raw = .ok t) :
    (t.result.isSome ↔ t.pnlUSDC.isSome) ∧ (t.type = .BUY ↔ t.pnlUSDC = none) := by
  obtain ⟨ms, rfl⟩ := transform_ok_eq_build h
  unfold buildTrade
  cases hr : realizedParts raw with
  | none => simp
  | some parts =>
    obtain ⟨ty, res, ret, pnlS, pctS⟩ := parts
    have hne : ty ≠ .BUY := realizedParts_ne_buy hr
    simp [hne]

/-- Witness for `trade_result_pnl_invariant` at the raw buy input. -/
theorem trade_result_pnl_invariant_witness :
    ∃ t, transformRawTrade rawBuy = .ok t
      ∧ ((t.result.isSome ↔ t.pnlUSDC.isSome) ∧ (t.type = .BUY ↔ t.pnlUSDC = none)) := by
  cases hEq : transformRawTrade rawBuy with
  | error e => cases e; exact absurd hEq (by decide)
  | ok t => exact ⟨t, rfl, trade_result_pnl_invariant rawBuy t hEq⟩

/-! ### C3 — `pnlPercent` of realized zero-cost trades -/

/-- C3 counterexample: the legacy closed-market won branch divides by
the cost without the zero guard.  At `rawLegacyZeroCost` (winning
outcome matches, cost scales to `0.00`) the normalizer yields a
realized trade (`pnlUSDC = "10.00"`) with `pnlPercent = "Infinity"`,
not `"0.00"`. -/
theorem legacy_zero_cost_infinite_percent :
    (transformRawTrade rawLegacyZeroCost).map Trade.pnlPercent = .ok (some "Infinity")
    ∧ (transformRawTrade rawLegacyZeroCost).map Trade.pnlUSDC = .ok (some "10.00")
    ∧ (transformRawTrade rawLegacyZeroCost).map
        (fun t => JSNum.eqNum (jsParseFloat (strOr t.costUSDC "0")) JSNum.zero) = .ok true := by
  refine ⟨?_, ?_, ?_⟩ <;> decide

/-- C3 (amended): the `cost == 0 → pnlPercent = "0.00"` policy holds on
the sell/redeem branch only.  On the legacy closed-market won path the
percent division is unguarded (yielding `"Infinity"`/`"NaN"` strings),
and on the legacy lost path `pnlPercent` is the constant `"-100.00"`. -/
theorem sell_redeem_zero_cost_percent (raw : RawTrade) (t : Trade)
    (hok : transformRawTrade raw = .ok t)
    (hbr : (isRedeemStrat raw || isSellStrat raw) = true)
    (hcost : JSNum.eqNum (jsParseFloat (scaledCostStr raw)) JSNum.zero = true) :
    t.pnlPercent = some "0.00" := by
  obtain ⟨ms, rfl⟩ := transform_ok_eq_build hok
  unfold buildTrade realizedParts
  simp only [hbr, hcost, if_true]
  split <;> rename_i heq <;> split at heq <;> simp_all

/-- Witness for `sell_redeem_zero_cost_percent` at the zero-cost sell
input. -/
theorem sell_redeem_zero_cost_percent_witness :
    (isRedeemStrat rawSellZeroCost || isSellStrat rawSellZeroCost) = true
    ∧ JSNum.eqNum (jsParseFloat (scaledCostStr rawSellZeroCost)) JSNum.zero = true
    ∧ ∃ t, transformRawTrade rawSellZeroCost = .ok t ∧ t.pnlPercent = some "0.00" := by
  refine ⟨by decide, by decide, ?_⟩
  cases hEq : transformRawTrade rawSellZeroCost with
  | error e => cases e; exact absurd hEq (by decide)
  | ok t =>
      exact ⟨t, rfl, sell_redeem_zero_cost_percent rawSellZeroCost t hEq (by decide) (by decide)⟩

/-! ### Helper lemmas about the aggregator fold -/

/-- A value equal (as a JS number) to `0` is not `> 0`. -/
theorem gt_zero_false_of_eq_zero (x : JSNum)
    (h : JSNum.eqNum x JSNum.zero = true) : JSNum.gt x JSNum.zero = false := by
  cases x <;>
    simp [JSNum.eqNum, JSNum.zero, Frac.eqF, JSNum.gt, JSNum.lt, Frac.ltF, Frac.zero] at h ⊢ <;>
    omega

/-- A value equal (as a JS number) to `0` is not `< 0`. -/
theorem lt_zero_false_of_eq_zero (x : JSNum)
    (h : JSNum.eqNum x JSNum.zero = true) : JSNum.lt x JSNum.zero = false := by
  cases x <;>
    simp [JSNum.eqNum, JSNum.zero, Frac.eqF, JSNum.lt, Frac.ltF, Frac.zero] at h ⊢ <;>
    omega

/-- `statsStep` always counts one closed trade. -/
theorem statsStep_totalTrades (acc : StatsAcc) (t : Trade) :
    (statsStep acc t).totalTrades = acc.totalTrades + 1 := by
  unfold statsStep
  split
  · rfl
  · split <;> rfl

/-- `statsStep` counts a profitable trade exactly when `profCond`. -/
theorem statsStep_profitable (acc : StatsAcc) (t : Trade) :
    (statsStep acc t).profitableTrades = acc.profitableTrades + (if profCond t then 1 else 0) := by
  unfold statsStep
  split <;> rename_i hp
  · simp [hp]
  · split <;> simp [hp]

/-- `statsStep` counts a losing trade exactly when `profCond` fails and
`loseCond` holds. -/
theorem statsStep_losing (acc : StatsAcc) (t : Trade) :
    (statsStep acc t).losingTrades
      = acc.losingTrades + (if !profCond t && loseCond t then 1 else 0) := by
  unfold statsStep
  split <;> rename_i hp
  · simp [hp]
  · split <;> rename_i hl <;> simp [hp, hl]

/-- Total-trade count of the aggregator fold. -/
theorem foldl_stats_totalTrades (l : List Trade) (acc : StatsAcc) :
    (l.foldl statsStep acc).totalTrades = acc.totalTrades + l.length := by
  induction l generalizing acc with
  | nil => simp
  | cons t ts ih => simp [List.foldl_cons, ih, statsStep_totalTrades]; omega

/-- Profitable count of the aggregator fold. -/
theorem foldl_stats_profitable (l : List Trade) (acc : StatsAcc) :
    (l.foldl statsStep acc).profitableTrades = acc.profitableTrades + l.countP profCond := by
  induction l generalizing acc with
  | nil => simp
  | cons t ts ih =>
      cases hp : profCond t <;>
        simp [List.foldl_cons, ih, statsStep_profitable, List.countP_cons, hp] <;> omega

/-- Losing count of the aggregator fold. -/
theorem foldl_stats_losing (l : List Trade) (acc : StatsAcc) :
    (l.foldl statsStep acc).losingTrades
      = acc.losingTrades + l.countP (fun t => !profCond t && loseCond t) := by
  induction l generalizing acc with
  | nil => simp
  | cons t ts ih =>
      cases hp : (!profCond t && loseCond t) <;>
        simp [List.foldl_cons, ih, statsStep_losing, List.countP_cons, hp] <;> omega

/-- `totalTrades` is the number of trades passing the closed filter. -/
theorem calcStats_totalTrades (trades : List Trade) (now : Int) :
    (calculateStatsFromTrades trades now).totalTrades = trades.countP closedTradePred := by
  unfold calculateStatsFromTrades
  dsimp only
  split <;> simp [foldl_stats_totalTrades, List.countP_eq_length_filter]

/-- `profitableTrades` counts closed trades passing `profCond`. -/
theorem calcStats_profitable (trades : List Trade) (now : Int) :
    (calculateStatsFromTrades trades now).profitableTrades
      = (trades.filter closedTradePred).countP profCond := by
  unfold calculateStatsFromTrades
  dsimp only
  split <;> simp [foldl_stats_profitable]

/-- `losingTrades` counts closed trades failing `profCond` and passing
`loseCond`. -/
theorem calcStats_losing (trades : List Trade) (now : Int) :
    (calculateStatsFromTrades trades now).losingTrades
      = (trades.filter closedTradePred).countP (fun t => !profCond t && loseCond t) := by
  unfold calculateStatsFromTrades
  dsimp only
  split <;> simp [foldl_stats_losing]

/-! ### C4 — zero-P&L closed trades in the win/loss partition -/

/-- C4 counterexample: a redeem whose proceeds equal its cost
normalizes to a closed trade with `pnlUSDC = "0.00"` and
`result = WON`, and the aggregator counts it in `profitableTrades`
(the claim says zero-P&L closed trades are counted in neither). -/
theorem zero_pnl_won_counted_profitable :
    (transformRawTrade rawRedeemEven).map (fun t => JSNum.eqNum (tradePnl t) JSNum.zero) = .ok true
    ∧ (transformRawTrade rawRedeemEven).map closedTradePred = .ok true
    ∧ (transformRawTrade rawRedeemEven).map
        (fun t => (calculateStatsFromTrades [t] 0).profitableTrades) = .ok 1
    ∧ (transformRawTrade rawRedeemEven).map
        (fun t => (calculateStatsFromTrades [t] 0).losingTrades) = .ok 0 := by
  refine ⟨?_, ?_, ?_, ?_⟩ <;> decide

/-- C4 (amended): a closed trade whose `pnlUSDC` parses to `0`
contributes to neither `profitableTrades` nor `losingTrades` only when
it also carries no `WON`/`LOST` result and no `SELL_PROFIT`/
`SELL_STOP_LOSS` type; a zero-P&L trade tagged `WON` (or typed
`SELL_PROFIT`) is counted profitable, and one tagged `LOST` (or typed
`SELL_STOP_LOSS`) is counted losing. -/
theorem zero_pnl_untagged_in_neither (ts : List Trade) (now : Int) (t : Trade)
    (hclosed : closedTradePred t = true)
    (hpnl : JSNum.eqNum (tradePnl t) JSNum.zero = true)
    (hres : t.result = none)
    (hsp : t.type ≠ .SELL_PROFIT)
    (hssl : t.type ≠ .SELL_STOP_LOSS) :
    (calculateStatsFromTrades (t :: ts) now).profitableTrades
        = (calculateStatsFromTrades ts now).profitableTrades
    ∧ (calculateStatsFromTrades (t :: ts) now).losingTrades
        = (calculateStatsFromTrades ts now).losingTrades := by
  have hgt := gt_zero_false_of_eq_zero _ hpnl
  have hlt := lt_zero_false_of_eq_zero _ hpnl
  have hpc : profCond t = false := by simp [profCond, hgt, hres, hsp]
  have hlc : loseCond t = false := by simp [loseCond, hlt, hres, hssl]
  constructor
  · rw [calcStats_profitable, calcStats_profitable]
    simp [List.filter_cons, hclosed, List.countP_cons, hpc]
  · rw [calcStats_losing, calcStats_losing]
    simp [List.filter_cons, hclosed, List.countP_cons, hpc, hlc]

/-- Witness for `zero_pnl_untagged_in_neither` at the untagged
zero-P&L trade `tEvenUntagged`. -/
theorem zero_pnl_untagged_in_neither_witness :
    closedTradePred tEvenUntagged = true
    ∧ (calculateStatsFromTrades [tEvenUntagged] 0).profitableTrades
        = (calculateStatsFromTrades [] 0).profitableTrades
    ∧ (calculateStatsFromTrades [tEvenUntagged] 0).losingTrades
        = (calculateStatsFromTrades [] 0).losingTrades :=
  ⟨by decide,
   (zero_pnl_untagged_in_neither [] 0 tEvenUntagged (by decide) (by decide) (by decide)
      (by decide) (by decide)).1,
   (zero_pnl_untagged_in_neither [] 0 tEvenUntagged (by decide) (by decide) (by decide)
      (by decide) (by decide)).2⟩

/-! ### Helper lemmas about the bucket fold -/

/-- `bucketStep` increments the bucket's trade count exactly for the
closed type tags. -/
theorem bucketStep_trades (t : Trade) (b : DailyAcc) :
    (bucketStep t b).trades = b.trades + (if typeClosed t then 1 else 0) := by
  unfold bucketStep
  dsimp only
  split <;> rename_i hc
  · split
    · simp [hc]
    · split <;> simp [hc]
  · simp [hc]

/-- `upsertBucket` adds the step's increment to the total of the
bucket map's trade counts. -/
theorem upsertBucket_sum (m : List DailyAcc) (k : DayKey) (ts : Int) (t : Trade) :
    ((upsertBucket m k ts t).map DailyAcc.trades).sum
      = (m.map DailyAcc.trades).sum + (if typeClosed t then 1 else 0) := by
  induction m with
  | nil =>
      cases hc : typeClosed t <;>
        simp [upsertBucket, bucketStep_trades, freshBucket, hc]
  | cons b bs ih =>
      unfold upsertBucket
      split
      · cases hc : typeClosed t <;> simp [bucketStep_trades, hc] <;> omega
      · simp [ih]
        omega

/-- The bucket fold counts exactly the closed-typed trades. -/
theorem foldl_upsert_sum (tsl : List Trade) (m : List DailyAcc) :
    (((tsl.foldl (fun m t => upsertBucket m (tradeDayKey t) (tradeTsVal t) t) m)).map
        DailyAcc.trades).sum
      = (m.map DailyAcc.trades).sum + tsl.countP typeClosed := by
  induction tsl generalizing m with
  | nil => simp
  | cons t ts ih =>
      cases hc : typeClosed t <;>
        simp [List.foldl_cons, ih, upsertBucket_sum, List.countP_cons, hc] <;> omega

/-- Summing `trades` over the emitted daily buckets counts the
closed-typed trades. -/
theorem calcDaily_sum (trades : List Trade) :
    ((calculateDailyStats trades).map DailyStats.trades).sum = trades.countP typeClosed := by
  unfold calculateDailyStats calcDailyAux
  rw [List.map_map]
  have hcomp : (DailyStats.trades ∘ dropTs) = DailyAcc.trades := funext fun b => rfl
  rw [hcomp]
  have hperm :=
    (List.perm_insertionSort (fun a b : DailyAcc => b.timestamp ≤ a.timestamp)
      (trades.foldl (fun m t => upsertBucket m (tradeDayKey t) (tradeTsVal t) t) [])).map
      DailyAcc.trades
  rw [hperm.sum_eq]
  simpa using foldl_upsert_sum trades []

/-! ### C9 — bucket totals agree with the aggregator -/

/-- C9: when every trade with a defined `result` has a non-`BUY` type
(so the bucketizer's type-tag predicate and the aggregator's closed
filter coincide, as they do on normalizer output), summing the `trades`
field over all daily buckets equals the aggregator's `totalTrades`. -/
theorem buckets_sum_eq_totalTrades (trades : List Trade) (now : Int)
    (h : ∀ t ∈ trades, t.result.isSome → t.type ≠ .BUY) :
    ((calculateDailyStats trades).map DailyStats.trades).sum
      = (calculateStatsFromTrades trades now).totalTrades := by
  rw [calcDaily_sum, calcStats_totalTrades]
  refine List.countP_congr fun t ht => ?_
  have ht2 := h t ht
  cases hty : t.type <;> cases hres : t.result <;>
    simp [typeClosed, closedTradePred, hty, hres] at ht2 ⊢

/-- Witness for `buckets_sum_eq_totalTrades` on a buy plus a redeem. -/
theorem buckets_sum_eq_totalTrades_witness :
    ((calculateDailyStats [tBuyLit, tRedeemLit]).map DailyStats.trades).sum
      = (calculateStatsFromTrades [tBuyLit, tRedeemLit] 0).totalTrades :=
  buckets_sum_eq_totalTrades [tBuyLit, tRedeemLit] 0 (by decide)

/-! ### Helper lemmas about the volume-history merge -/

/-- Replace-or-append always leaves `⟨today, v, now⟩` as the first
entry dated `today`: the updated entry coincides with the appended one
because every field except `date` is overwritten and the found entry's
date equals `today`. -/
theorem firstToday_replaceFirst (hist : List VolEntry) (today : Int) (v : JSNum) (now : Int) :
    firstToday today (replaceFirstVol today v now hist) = some ⟨today, v, now⟩ := by
  induction hist with
  | nil => simp [replaceFirstVol, firstToday]
  | cons e es ih =>
      unfold replaceFirstVol
      by_cases he : e.date = today
      · simp [he, firstToday]
      · simp [he, firstToday, ih]

/-- `orderedInsert` with the descending comparator inserts a
today-dated entry in front of every today-dated entry of the list, and
does not disturb which entry is the first today-dated one otherwise. -/
theorem firstToday_orderedInsert (today : Int) (a : VolEntry) (l : List VolEntry) :
    firstToday today (List.orderedInsert volDescRel a l)
      = if a.date = today then some a else firstToday today l := by
  induction l with
  | nil => simp [List.orderedInsert, firstToday]
  | cons b l ih =>
      unfold List.orderedInsert
      by_cases hr : volDescRel a b
      · rw [if_pos hr]
        rfl
      · rw [if_neg hr]
        show (if b.date = today then some b
            else firstToday today (List.orderedInsert volDescRel a l)) = _
        by_cases hb : b.date = today
        · have ha : a.date ≠ today := by
            intro ha
            exact hr (by unfold volDescRel; omega)
          simp [firstToday, hb, ha]
        · rw [if_neg hb, ih]
          simp [firstToday, hb]

/-- The stable descending sort preserves the first today-dated entry. -/
theorem firstToday_sortDescVol (today : Int) (l : List VolEntry) :
    firstToday today (sortDescVol l) = firstToday today l := by
  unfold sortDescVol
  induction l with
  | nil => rfl
  | cons a l ih =>
      show firstToday today (List.orderedInsert volDescRel a (l.insertionSort volDescRel)) = _
      rw [firstToday_orderedInsert, ih]
      by_cases ha : a.date = today <;> simp [ha, firstToday]

/-- The first today-dated entry of a prefix is the first today-dated
entry of the list. -/
theorem firstToday_take {today : Int} {l : List VolEntry} {n : ℕ} {e : VolEntry}
    (h : firstToday today (l.take n) = some e) : firstToday today l = some e := by
  induction l generalizing n with
  | nil => simp [firstToday] at h
  | cons a l ih =>
      cases n with
      | zero => simp [firstToday] at h
      | succ n =>
          rw [List.take_succ_cons] at h
          unfold firstToday at h ⊢
          by_cases ha : a.date = today
          · simpa [ha] using h
          · rw [if_neg ha] at h ⊢
            exact ih h

/-- The first today-dated entry is a member. -/
theorem firstToday_mem {today : Int} {l : List VolEntry} {e : VolEntry}
    (h : firstToday today l = some e) : e ∈ l := by
  induction l with
  | nil => simp [firstToday] at h
  | cons a l ih =>
      unfold firstToday at h
      by_cases ha : a.date = today
      · rw [if_pos ha] at h
        exact (Option.some.inj h) ▸ List.mem_cons_self a l
      · rw [if_neg ha] at h
        exact List.mem_cons_of_mem a (ih h)

/-- With no today-dated entry, every member has another date. -/
theorem firstToday_none_forall {today : Int} {l : List VolEntry}
    (h : firstToday today l = none) : ∀ e ∈ l, e.date ≠ today := by
  induction l with
  | nil => intro e he; simp at he
  | cons a l ih =>
      unfold firstToday at h
      by_cases ha : a.date = today
      · rw [if_pos ha] at h; exact absurd h (by simp)
      · rw [if_neg ha] at h
        intro e he
        rcases List.mem_cons.mp he with rfl | hmem
        · exact ha
        · exact ih h e hmem

/-- Replacing when the first today-dated entry already holds today's
values is the identity. -/
theorem replaceFirst_of_firstToday_self {hist : List VolEntry} {today : Int} {v : JSNum}
    {now : Int} (h : firstToday today hist = some ⟨today, v, now⟩) :
    replaceFirstVol today v now hist = hist := by
  induction hist with
  | nil => simp [firstToday] at h
  | cons e es ih =>
      unfold firstToday at h
      unfold replaceFirstVol
      by_cases he : e.date = today
      · rw [if_pos he] at h
        rw [if_pos he]
        have : e = ⟨today, v, now⟩ := Option.some.inj h
        rw [this]
      · rw [if_neg he] at h
        rw [if_neg he, ih h]

/-- With no today-dated entry, replace-or-append appends. -/
theorem replaceFirst_of_firstToday_none {hist : List VolEntry} {today : Int} {v : JSNum}
    {now : Int} (h : firstToday today hist = none) :
    replaceFirstVol today v now hist = hist ++ [⟨today, v, now⟩] := by
  induction hist with
  | nil => rfl
  | cons e es ih =>
      unfold firstToday at h
      unfold replaceFirstVol
      by_cases he : e.date = today
      · rw [if_pos he] at h; exact absurd h (by simp)
      · rw [if_neg he] at h
        rw [if_neg he, ih h, List.cons_append]

/-- Replace-or-append creates no entry with a non-today date. -/
theorem mem_replaceFirst_of_ne {hist : List VolEntry} {today : Int} {v : JSNum} {now : Int}
    {e : VolEntry} (hm : e ∈ replaceFirstVol today v now hist) (hne : e.date ≠ today) :
    e ∈ hist := by
  induction hist with
  | nil =>
      unfold replaceFirstVol at hm
      rcases List.mem_singleton.mp hm with rfl
      exact absurd rfl hne
  | cons b bs ih =>
      unfold replaceFirstVol at hm
      by_cases hb : b.date = today
      · rw [if_pos hb] at hm
        rcases List.mem_cons.mp hm with rfl | hmem
        · exact absurd hb hne
        · exact List.mem_cons_of_mem _ hmem
      · rw [if_neg hb] at hm
        rcases List.mem_cons.mp hm with rfl | hmem
        · exact List.mem_cons_self _ _
        · exact List.mem_cons_of_mem _ (ih hmem)

/-- Replace-or-append keeps every entry with a non-today date. -/
theorem mem_replaceFirst_of_mem_ne {hist : List VolEntry} {today : Int} {v : JSNum} {now : Int}
    {e : VolEntry} (hm : e ∈ hist) (hne : e.date ≠ today) :
    e ∈ replaceFirstVol today v now hist := by
  induction hist with
  | nil => simp at hm
  | cons b bs ih =>
      unfold replaceFirstVol
      rcases List.mem_cons.mp hm with rfl | hmem
      · rw [if_neg hne]
        exact List.mem_cons_self _ _
      · by_cases hb : b.date = today
        · rw [if_pos hb]
          exact List.mem_cons_of_mem _ hmem
        · rw [if_neg hb]
          exact List.mem_cons_of_mem b (ih hmem)

/-- When a today-dated entry exists, replace-or-append leaves the date
sequence unchanged. -/
theorem map_date_replaceFirst_some {hist : List VolEntry} {today : Int} {v : JSNum} {now : Int}
    {x : VolEntry} (h : firstToday today hist = some x) :
    (replaceFirstVol today v now hist).map VolEntry.date = hist.map VolEntry.date := by
  induction hist with
  | nil => simp [firstToday] at h
  | cons e es ih =>
      unfold firstToday at h
      unfold replaceFirstVol
      by_cases he : e.date = today
      · rw [if_pos he]; rfl
      · rw [if_neg he] at h
        rw [if_neg he]
        simpa using ih h

/-! ### C8 — date uniqueness is preserved by the merge -/

/-- C8: if the persisted series has at most one entry per date, so has
the merged series (replace keeps the date sequence; append adds a date
that did not occur; sorting permutes; the cap takes a sublist). -/
theorem merge_preserves_date_nodup (hist : List VolEntry) (today : Int) (v : JSNum) (now : Int)
    (h : (hist.map VolEntry.date).Nodup) :
    ((updateDailyVolumePure hist today v now).map VolEntry.date).Nodup := by
  have hrep : ((replaceFirstVol today v now hist).map VolEntry.date).Nodup := by
    cases hf : firstToday today hist with
    | some x => rw [map_date_replaceFirst_some hf]; exact h
    | none =>
        rw [replaceFirst_of_firstToday_none hf]
        rw [List.map_append]
        rw [List.nodup_append]
        refine ⟨h, List.nodup_singleton _, ?_⟩
        intro d hd
        simp only [List.mem_map] at hd
        obtain ⟨e, he, rfl⟩ := hd
        simp only [List.map_cons, List.map_nil, List.mem_singleton]
        intro hcontra
        exact (firstToday_none_forall hf e he) hcontra
  have hperm : List.Perm
      ((sortDescVol (replaceFirstVol today v now hist)).map VolEntry.date)
      ((replaceFirstVol today v now hist).map VolEntry.date) :=
    (List.perm_insertionSort volDescRel _).map _
  have hsorted : ((sortDescVol (replaceFirstVol today v now hist)).map VolEntry.date).Nodup :=
    hperm.nodup_iff.mpr hrep
  unfold updateDailyVolumePure
  rw [List.map_take]
  exact List.Nodup.sublist (List.take_sublist _ _) hsorted

/-- Witness for `merge_preserves_date_nodup` on the one-entry history. -/
theorem merge_preserves_date_nodup_witness :
    ((updateDailyVolumePure volHist0 10 (JSNum.num (Frac.ofInt 9)) 200).map
        VolEntry.date).Nodup :=
  merge_preserves_date_nodup volHist0 10 (JSNum.num (Frac.ofInt 9)) 200 (by decide)

/-! ### C10 — frame property of the volume merge -/

/-- C10: the merge touches only today's entry.  Every entry of the
merged output dated differently from today is an entry of the input
series, unchanged in all fields; and every input entry dated
differently from today survives the replace-or-append stage (so it
appears in the output exactly when it ranks among the 90 most recent
entries of the sorted merged series, of which the output is the
90-prefix by definition). -/
theorem merge_frame (hist : List VolEntry) (today : Int) (v : JSNum) (now : Int) :
    (∀ e ∈ updateDailyVolumePure hist today v now, e.date ≠ today → e ∈ hist)
    ∧ (∀ e ∈ hist, e.date ≠ today → e ∈ replaceFirstVol today v now hist) := by
  constructor
  · intro e he hne
    unfold updateDailyVolumePure at he
    have h1 : e ∈ sortDescVol (replaceFirstVol today v now hist) := List.mem_of_mem_take he
    have h2 : e ∈ replaceFirstVol today v now hist := by
      unfold sortDescVol at h1
      exact (List.mem_insertionSort volDescRel).mp h1
    exact mem_replaceFirst_of_ne h2 hne
  · intro e he hne
    exact mem_replaceFirst_of_mem_ne he hne

/-- Witness for `merge_frame`: the day-5 entry of the one-entry history
is in the merged output for day 10 and is recovered unchanged. -/
theorem merge_frame_witness :
    (⟨5, JSNum.num (Frac.ofInt 7), 100⟩ : VolEntry) ∈ volHist0 :=
  (merge_frame volHist0 10 (JSNum.num (Frac.ofInt 9)) 200).1
    ⟨5, JSNum.num (Frac.ofInt 7), 100⟩ (by decide) (by decide)

/-! ### Idempotence of the volume merge -/

/-- One-sided idempotence for the volume call site; the C7 theorem
conjoins this with the points version. -/
theorem updateDailyVolumePure_idem (hist : List VolEntry) (today : Int) (v : JSNum) (now : Int) :
    updateDailyVolumePure (updateDailyVolumePure hist today v now) today v now
      = updateDailyVolumePure hist today v now := by
  have hfS : firstToday today (sortDescVol (replaceFirstVol today v now hist))
      = some ⟨today, v, now⟩ := by
    rw [firstToday_sortDescVol]
    exact firstToday_replaceFirst hist today v now
  have hsortedS : (sortDescVol (replaceFirstVol today v now hist)).Sorted volDescRel :=
    List.sorted_insertionSort volDescRel _
  have hsortedM : (updateDailyVolumePure hist today v now).Sorted volDescRel :=
    hsortedS.sublist (List.take_sublist _ _)
  have hlenM : (updateDailyVolumePure hist today v now).length ≤ 90 := by
    unfold updateDailyVolumePure
    rw [List.length_take]
    exact Nat.min_le_left _ _
  cases hfM : firstToday today (updateDailyVolumePure hist today v now) with
  | some x =>
      have hx : x = ⟨today, v, now⟩ := by
        have h1 : firstToday today (sortDescVol (replaceFirstVol today v now hist)) = some x :=
          firstToday_take hfM
        rw [hfS] at h1
        exact (Option.some.inj h1).symm
      subst hx
      show (sortDescVol (replaceFirstVol today v now
          (updateDailyVolumePure hist today v now))).take 90 = _
      rw [replaceFirst_of_firstToday_self hfM]
      show ((updateDailyVolumePure hist today v now).insertionSort volDescRel).take 90 = _
      rw [List.Sorted.insertionSort_eq hsortedM, List.take_of_length_le hlenM]
  | none =>
      have hES : (⟨today, v, now⟩ : VolEntry) ∈ sortDescVol (replaceFirstVol today v now hist) :=
        firstToday_mem hfS
      have hEM : (⟨today, v, now⟩ : VolEntry) ∉ updateDailyVolumePure hist today v now :=
        fun hmem => (firstToday_none_forall hfM _ hmem) rfl
      have hEdrop : (⟨today, v, now⟩ : VolEntry)
          ∈ (sortDescVol (replaceFirstVol today v now hist)).drop 90 := by
        have hsplit := List.take_append_drop 90 (sortDescVol (replaceFirstVol today v now hist))
        have h2 : (⟨today, v, now⟩ : VolEntry)
            ∈ (sortDescVol (replaceFirstVol today v now hist)).take 90
              ++ (sortDescVol (replaceFirstVol today v now hist)).drop 90 := by
          rw [hsplit]; exact hES
        rcases List.mem_append.mp h2 with h3 | h3
        · exact absurd h3 hEM
        · exact h3
      have hlen : (sortDescVol (replaceFirstVol today v now hist)).length > 90 := by
        have hd : 0 < ((sortDescVol (replaceFirstVol today v now hist)).drop 90).length :=
          List.length_pos.mpr (fun hnil => by simp [hnil] at hEdrop)
        rw [List.length_drop] at hd
        omega
      have hMlen : (updateDailyVolumePure hist today v now).length = 90 := by
        unfold updateDailyVolumePure
        rw [List.length_take]
        omega
      have hallge : ∀ m ∈ updateDailyVolumePure hist today v now,
          volDescRel m (⟨today, v, now⟩ : VolEntry) := by
        intro m hm
        exact hsortedS.rel_of_mem_take_of_mem_drop hm hEdrop
      have hsorted2 : ((updateDailyVolumePure hist today v now)
          ++ [(⟨today, v, now⟩ : VolEntry)]).Sorted volDescRel := by
        rw [List.Sorted, List.pairwise_append]
        refine ⟨hsortedM, List.pairwise_singleton _ _, ?_⟩
        intro x hx y hy
        rcases List.mem_singleton.mp hy with rfl
        exact hallge x hx
      show (sortDescVol (replaceFirstVol today v now
          (updateDailyVolumePure hist today v now))).take 90 = _
      rw [replaceFirst_of_firstToday_none hfM]
      show (((updateDailyVolumePure hist today v now)
          ++ [(⟨today, v, now⟩ : VolEntry)]).insertionSort volDescRel).take 90 = _
      rw [List.Sorted.insertionSort_eq hsorted2]
      rw [← hMlen, List.take_left]

/-! ### The same lemmas for the points-history merge -/

/-- Points version of `firstToday_replaceFirst`. -/
theorem firstTodayP_replaceFirst (hist : List PtsEntry) (today : Int) (s1 s2 cm : JSNum)
    (now : Int) :
    firstTodayP today (replaceFirstPts today s1 s2 cm now hist) = some ⟨today, s1, s2, cm, now⟩ := by
  induction hist with
  | nil => simp [replaceFirstPts, firstTodayP]
  | cons e es ih =>
      unfold replaceFirstPts
      by_cases he : e.date = today
      · simp [he, firstTodayP]
      · simp [he, firstTodayP, ih]

/-- Points version of `firstToday_orderedInsert`. -/
theorem firstTodayP_orderedInsert (today : Int) (a : PtsEntry) (l : List PtsEntry) :
    firstTodayP today (List.orderedInsert ptsDescRel a l)
      = if a.date = today then some a else firstTodayP today l := by
  induction l with
  | nil => simp [List.orderedInsert, firstTodayP]
  | cons b l ih =>
      unfold List.orderedInsert
      by_cases hr : ptsDescRel a b
      · rw [if_pos hr]
        rfl
      · rw [if_neg hr]
        show (if b.date = today then some b
            else firstTodayP today (List.orderedInsert ptsDescRel a l)) = _
        by_cases hb : b.date = today
        · have ha : a.date ≠ today := by
            intro ha
            exact hr (by unfold ptsDescRel; omega)
          simp [firstTodayP, hb, ha]
        · rw [if_neg hb, ih]
          simp [firstTodayP, hb]

/-- Points version of `firstToday_sortDescVol`. -/
theorem firstTodayP_sortDescPts (today : Int) (l : List PtsEntry) :
    firstTodayP today (sortDescPts l) = firstTodayP today l := by
  unfold sortDescPts
  induction l with
  | nil => rfl
  | cons a l ih =>
      show firstTodayP today (List.orderedInsert ptsDescRel a (l.insertionSort ptsDescRel)) = _
      rw [firstTodayP_orderedInsert, ih]
      by_cases ha : a.date = today <;> simp [ha, firstTodayP]

/-- Points version of `firstToday_take`. -/
theorem firstTodayP_take {today : Int} {l : List PtsEntry} {n : ℕ} {e : PtsEntry}
    (h : firstTodayP today (l.take n) = some e) : firstTodayP today l = some e := by
  induction l generalizing n with
  | nil => simp [firstTodayP] at h
  | cons a l ih =>
      cases n with
      | zero => simp [firstTodayP] at h
      | succ n =>
          rw [List.take_succ_cons] at h
          unfold firstTodayP at h ⊢
          by_cases ha : a.date = today
          · simpa [ha] using h
          · rw [if_neg ha] at h ⊢
            exact ih h

/-- Points version of `firstToday_mem`. -/
theorem firstTodayP_mem {today : Int} {l : List PtsEntry} {e : PtsEntry}
    (h : firstTodayP today l = some e) : e ∈ l := by
  induction l with
  | nil => simp [firstTodayP] at h
  | cons a l ih =>
      unfold firstTodayP at h
      by_cases ha : a.date = today
      · rw [if_pos ha] at h
        exact (Option.some.inj h) ▸ List.mem_cons_self a l
      · rw [if_neg ha] at h
        exact List.mem_cons_of_mem a (ih h)

/-- Points version of `firstToday_none_forall`. -/
theorem firstTodayP_none_forall {today : Int} {l : List PtsEntry}
    (h : firstTodayP today l = none) : ∀ e ∈ l, e.date ≠ today := by
  induction l with
  | nil => intro e he; simp at he
  | cons a l ih =>
      unfold firstTodayP at h
      by_cases ha : a.date = today
      · rw [if_pos ha] at h; exact absurd h (by simp)
      · rw [if_neg ha] at h
        intro e he
        rcases List.mem_cons.mp he with rfl | hmem
        · exact ha
        · exact ih h e hmem

/-- Points version of `replaceFirst_of_firstToday_self`. -/
theorem replaceFirstP_of_firstTodayP_self {hist : List PtsEntry} {today : Int}
    {s1 s2 cm : JSNum} {now : Int}
    (h : firstTodayP today hist = some ⟨today, s1, s2, cm, now⟩) :
    replaceFirstPts today s1 s2 cm now hist = hist := by
  induction hist with
  | nil => simp [firstTodayP] at h
  | cons e es ih =>
      unfold firstTodayP at h
      unfold replaceFirstPts
      by_cases he : e.date = today
      · rw [if_pos he] at h
        rw [if_pos he]
        have he2 : e = ⟨today, s1, s2, cm, now⟩ := Option.some.inj h
        rw [he2]
      · rw [if_neg he] at h
        rw [if_neg he, ih h]

/-- Points version of `replaceFirst_of_firstToday_none`. -/
theorem replaceFirstP_of_firstTodayP_none {hist : List PtsEntry} {today : Int}
    {s1 s2 cm : JSNum} {now : Int} (h : firstTodayP today hist = none) :
    replaceFirstPts today s1 s2 cm now hist = hist ++ [⟨today, s1, s2, cm, now⟩] := by
  induction hist with
  | nil => rfl
  | cons e es ih =>
      unfold firstTodayP at h
      unfold replaceFirstPts
      by_cases he : e.date = today
      · rw [if_pos he] at h; exact absurd h (by simp)
      · rw [if_neg he] at h
        rw [if_neg he, ih h, List.cons_append]

/-- Points-side idempotence, mirroring `updateDailyVolumePure_idem`. -/
theorem updateDailyPointsPure_idem (hist : List PtsEntry) (today : Int) (s1 s2 cm : JSNum)
    (now : Int) :
    updateDailyPointsPure (updateDailyPointsPure hist today s1 s2 cm now) today s1 s2 cm now
      = updateDailyPointsPure hist today s1 s2 cm now := by
  have hfS : firstTodayP today (sortDescPts (replaceFirstPts today s1 s2 cm now hist))
      = some ⟨today, s1, s2, cm, now⟩ := by
    rw [firstTodayP_sortDescPts]
    exact firstTodayP_replaceFirst hist today s1 s2 cm now
  have hsortedS : (sortDescPts (replaceFirstPts today s1 s2 cm now hist)).Sorted ptsDescRel :=
    List.sorted_insertionSort ptsDescRel _
  have hsortedM : (updateDailyPointsPure hist today s1 s2 cm now).Sorted ptsDescRel :=
    hsortedS.sublist (List.take_sublist _ _)
  have hlenM : (updateDailyPointsPure hist today s1 s2 cm now).length ≤ 90 := by
    unfold updateDailyPointsPure
    rw [List.length_take]
    exact Nat.min_le_left _ _
  cases hfM : firstTodayP today (updateDailyPointsPure hist today s1 s2 cm now) with
  | some x =>
      have hx : x = ⟨today, s1, s2, cm, now⟩ := by
        have h1 : firstTodayP today (sortDescPts (replaceFirstPts today s1 s2 cm now hist))
            = some x := firstTodayP_take hfM
        rw [hfS] at h1
        exact (Option.some.inj h1).symm
      subst hx
      show (sortDescPts (replaceFirstPts today s1 s2 cm now
          (updateDailyPointsPure hist today s1 s2 cm now))).take 90 = _
      rw [replaceFirstP_of_firstTodayP_self hfM]
      show ((updateDailyPointsPure hist today s1 s2 cm now).insertionSort ptsDescRel).take 90 = _
      rw [List.Sorted.insertionSort_eq hsortedM, List.take_of_length_le hlenM]
  | none =>
      have hES : (⟨today, s1, s2, cm, now⟩ : PtsEntry)
          ∈ sortDescPts (replaceFirstPts today s1 s2 cm now hist) :=
        firstTodayP_mem hfS
      have hEM : (⟨today, s1, s2, cm, now⟩ : PtsEntry)
          ∉ updateDailyPointsPure hist today s1 s2 cm now :=
        fun hmem => (firstTodayP_none_forall hfM _ hmem) rfl
      have hEdrop : (⟨today, s1, s2, cm, now⟩ : PtsEntry)
          ∈ (sortDescPts (replaceFirstPts today s1 s2 cm now hist)).drop 90 := by
        have hsplit := List.take_append_drop 90 (sortDescPts (replaceFirstPts today s1 s2 cm now hist))
        have h2 : (⟨today, s1, s2, cm, now⟩ : PtsEntry)
            ∈ (sortDescPts (replaceFirstPts today s1 s2 cm now hist)).take 90
              ++ (sortDescPts (replaceFirstPts today s1 s2 cm now hist)).drop 90 := by
          rw [hsplit]; exact hES
        rcases List.mem_append.mp h2 with h3 | h3
        · exact absurd h3 hEM
        · exact h3
      have hlen : (sortDescPts (replaceFirstPts today s1 s2 cm now hist)).length > 90 := by
        have hd : 0 < ((sortDescPts (replaceFirstPts today s1 s2 cm now hist)).drop 90).length :=
          List.length_pos.mpr (fun hnil => by simp [hnil] at hEdrop)
        rw [List.length_drop] at hd
        omega
      have hMlen : (updateDailyPointsPure hist today s1 s2 cm now).length = 90 := by
        unfold updateDailyPointsPure
        rw [List.length_take]
        omega
      have hallge : ∀ m ∈ updateDailyPointsPure hist today s1 s2 cm now,
          ptsDescRel m (⟨today, s1, s2, cm, now⟩ : PtsEntry) := by
        intro m hm
        exact hsortedS.rel_of_mem_take_of_mem_drop hm hEdrop
      have hsorted2 : ((updateDailyPointsPure hist today s1 s2 cm now)
          ++ [(⟨today, s1, s2, cm, now⟩ : PtsEntry)]).Sorted ptsDescRel := by
        rw [List.Sorted, List.pairwise_append]
        refine ⟨hsortedM, List.pairwise_singleton _ _, ?_⟩
        intro x hx y hy
        rcases List.mem_singleton.mp hy with rfl
        exact hallge x hx
      show (sortDescPts (replaceFirstPts today s1 s2 cm now
          (updateDailyPointsPure hist today s1 s2 cm now))).take 90 = _
      rw [replaceFirstP_of_firstTodayP_none hfM]
      show (((updateDailyPointsPure hist today s1 s2 cm now)
          ++ [(⟨today, s1, s2, cm, now⟩ : PtsEntry)]).insertionSort ptsDescRel).take 90 = _
      rw [List.Sorted.insertionSort_eq hsorted2]
      rw [← hMlen, List.take_left]

/-! ### C7 — idempotence of the history merge -/

/-- C7: with the clock held fixed (same `today`, same metric values,
same `now`), merging the same today-entry twice yields the same series
as merging it once, at both call sites of the history merger. -/
theorem merge_idempotent (histV : List VolEntry) (histP : List PtsEntry) (today : Int)
    (v s1 s2 cm : JSNum) (now : Int) :
    updateDailyVolumePure (updateDailyVolumePure histV today v now) today v now
      = updateDailyVolumePure histV today v now
    ∧ updateDailyPointsPure (updateDailyPointsPure histP today s1 s2 cm now) today s1 s2 cm now
      = updateDailyPointsPure histP today s1 s2 cm now :=
  ⟨updateDailyVolumePure_idem histV today v now,
   updateDailyPointsPure_idem histP today s1 s2 cm now⟩

end Limitless
